import Mathlib

/-!
Verification of the duplicate-detection and normalization engine of
`app.py` (Flask Excel/CSV duplicate checker).

The tabular data model, the normalizer (`normalize_data_for_comparison`),
the pandas `duplicated` masks used at the analysis site and in
`highlight_duplicates`, the duplicate/cleaned partition, and the
data-quality percentage of `analyze_data_quality` are shallowly embedded
below.  Machine floats are modelled as exact rationals with explicit
rounding; the two pandas missing markers (`numpy.nan` / `None` on one
hand, `pandas.NA` on the other) are modelled as two distinct `Cell`
constructors because `astype(str)` renders them differently
(as "nan" and as "<NA>" respectively).
-/

/-! ## Characters and strings

Python string operations used by the normalizer, on ASCII text:
`str.strip`, `str.lower`, and the regex replacement of a whitespace run
by a single space.  Whitespace is the ASCII set matched by the regex
class backslash-s: space, tab, newline, carriage return, vertical tab,
form feed. -/

/-- Whitespace test of the Python regex class for whitespace (ASCII part). -/
def isWS (c : Char) : Bool :=
  c.toNat = 32 ∨ c.toNat = 9 ∨ c.toNat = 10 ∨ c.toNat = 13 ∨ c.toNat = 11 ∨ c.toNat = 12

/-- Python `str.lower` on one character (ASCII range, the part exercised
by the program: uppercase letters A-Z map to a-z, all else unchanged). -/
def lowerChar (c : Char) : Char :=
  if 65 ≤ c.toNat ∧ c.toNat ≤ 90 then Char.ofNat (c.toNat + 32) else c

/-- Python `str.strip`: drop leading and trailing whitespace. -/
def stripChars (l : List Char) : List Char :=
  ((l.dropWhile isWS).reverse.dropWhile isWS).reverse

/-- Run-collapsing worker: the flag records whether the previous
character belonged to a whitespace run that has already been replaced
by its single space. -/
def collapseWSAux : Bool → List Char → List Char
  | _, [] => []
  | inRun, c :: rest =>
    if isWS c then
      if inRun then collapseWSAux true rest else ' ' :: collapseWSAux true rest
    else c :: collapseWSAux false rest

/-- The pandas `.str.replace(r"\s+", " ", regex=True)` step: every maximal
run of whitespace characters becomes one single space. -/
def collapseWS (l : List Char) : List Char :=
  collapseWSAux false l

/-- The full string pipeline of `normalize_data_for_comparison` for one
cell of an object column, after `astype(str)`: strip, lower, collapse
whitespace runs (in the order of lines 112-114 of `app.py`). -/
def pyStrNormalize (l : List Char) : List Char :=
  collapseWS ((stripChars l).map lowerChar)

/-! ## Cells, column types, tables

A pandas DataFrame: ordered columns, each with a name and an inferred
dtype, and rows of cells.  `Cell.nan` is the float NaN / `None` missing
marker produced when a file is loaded; `Cell.NA` is `pandas.NA`, the
marker that `normalize_data_for_comparison` substitutes for the literal
strings "nan", "none", "null" and "".  The two markers compare equal
inside `DataFrame.duplicated` but are rendered differently by
`astype(str)` ("nan" versus "<NA>"). -/

inductive DType where
  | object : DType
  | float : DType
  | int : DType
  | bool : DType
deriving DecidableEq

inductive Cell where
  | str : String → Cell
  | float : ℚ → Cell
  | int : ℤ → Cell
  | bool : Bool → Cell
  | nan : Cell
  | NA : Cell
deriving DecidableEq

/-- A pandas DataFrame: a header of (column name, dtype) pairs and a list
of rows, each row a list of cells aligned with the header. -/
structure Table where
  header : List (String × DType)
  rows : List (List Cell)
deriving DecidableEq

/-- Column names of a table (`df.columns`). -/
def Table.colNames (t : Table) : List String :=
  t.header.map Prod.fst

/-- Cell of row `i`, column `j` (missing positions read as `nan`). -/
def Table.cell (t : Table) (i j : ℕ) : Cell :=
  (t.rows.getD i []).getD j Cell.nan

/-- Is a cell null for pandas `isnull` (float NaN and `pandas.NA` both are). -/
def Cell.isNull : Cell → Bool
  | .nan => true
  | .NA => true
  | _ => false

/-- Does a cell value agree with the dtype pandas inferred for its column?
Object columns of this program hold strings and missing markers, float
columns hold floats and NaN, int64 and bool columns hold exact values
and admit no missing marker. -/
def cellFits (d : DType) (c : Cell) : Bool :=
  match d, c with
  | .object, .str _ => true
  | .object, .nan => true
  | .object, .NA => true
  | .float, .float _ => true
  | .float, .nan => true
  | .int, .int _ => true
  | .bool, .bool _ => true
  | _, _ => false

/-- Well-formed table: unique column names (the data model fixes names as
unique within a table), every row as long as the header, every cell
fitting its column dtype. -/
def Table.wf (t : Table) : Bool :=
  (t.colNames.Nodup : Bool) &&
  t.rows.all fun r =>
    r.length = t.header.length &&
    (List.range t.header.length).all fun j =>
      cellFits (t.header.getD j ("", .object)).2 (r.getD j Cell.nan)

/-! ## Rounding

numpy and Python round half to even.  `pyRound k q` is `round(q, k)`
on an exact rational. -/

/-- Round a rational to the nearest integer, halves to the even neighbour. -/
def rhe (q : ℚ) : ℤ :=
  if q - ⌊q⌋ < 1/2 then ⌊q⌋
  else if 1/2 < q - ⌊q⌋ then ⌊q⌋ + 1
  else if 2 ∣ ⌊q⌋ then ⌊q⌋ else ⌊q⌋ + 1

/-- Python `round(q, k)` / pandas `Series.round(k)` on an exact rational. -/
def pyRound (k : ℕ) (q : ℚ) : ℚ :=
  (rhe (q * 10 ^ k) : ℚ) / 10 ^ k

/-! ## The normalizer (`normalize_data_for_comparison`, app.py lines 103-128) -/

/-- The strings that line 116-121 of `app.py` replaces by `pandas.NA`
after the string pipeline. -/
def isNAString (s : String) : Bool :=
  s = "nan" ∨ s = "none" ∨ s = "" ∨ s = "null"

/-- Effect of lines 110-126 of `app.py` on one cell, by column dtype.

Object column (lines 110-121): `astype(str)` renders a string as itself,
the float-NaN / `None` marker as "nan" and `pandas.NA` as "<NA>"; then
strip, lower, collapse whitespace; then the replacement dictionary sends
"nan", "none", "", "null" to `pandas.NA`.  So a string cell goes through
`pyStrNormalize`, a `nan` cell becomes `NA`, and a `NA` cell becomes the
literal string "<na>" (not in the replacement dictionary).  Cells of
other shapes cannot occur in an object column of a loaded table
(see `cellFits`) and are left unchanged.

Float column (lines 124-126): `round(6)`, NaN staying NaN.  Integer and
bool columns are not touched by the function. -/
def normalizeCell : DType → Cell → Cell
  | .object, .str s =>
    let t := String.mk (pyStrNormalize s.data)
    if isNAString t then .NA else .str t
  | .object, .nan => .NA
  | .object, .NA => .str "<na>"
  | .float, .float q => .float (pyRound 6 q)
  | _, c => c

/-- One iteration of the loop of lines 107-126: if a column named `c`
exists, replace every cell of that column by its normalized value
(`df_normalized[col] = ...`); otherwise do nothing. -/
def normalizeColumn (t : Table) (c : String) : Table :=
  match t.header.findIdx? (fun p => p.1 = c) with
  | none => t
  | some j =>
    let d := (t.header.getD j ("", .object)).2
    ⟨t.header, t.rows.map fun r => r.set j (normalizeCell d (r.getD j Cell.nan))⟩

/-- `normalize_data_for_comparison(df, columns)` (lines 103-128): start
from a copy of the table and run the column loop over the requested
column names.  The copy never mutates the input, which the embedding
renders by returning a new table. -/
def normalize_data_for_comparison (t : Table) (cols : List String) : Table :=
  cols.foldl normalizeColumn t

/-! ## pandas `DataFrame.duplicated` and the analysis masks -/

/-- pandas `duplicated` compares all missing markers as equal; keys
collapse `pandas.NA` to the float-NaN marker before comparison. -/
def canonCell (c : Cell) : Cell :=
  match c with
  | .NA => .nan
  | c => c

/-- Key tuple of one row under a subset of column names: the cell under
each requested name (first matching header position). -/
def rowKey (header : List (String × DType)) (subset : List String) (r : List Cell) : List Cell :=
  subset.map fun c =>
    match header.findIdx? (fun p => p.1 = c) with
    | none => Cell.nan
    | some j => canonCell (r.getD j Cell.nan)

/-- Key tuples of all rows of a table under a subset of column names. -/
def tableKeys (t : Table) (subset : List String) : List (List Cell) :=
  t.rows.map (rowKey t.header subset)

/-- pandas `duplicated(subset, keep=False)`: row `i` is marked iff its key
occurs at least twice in the whole list. -/
def dupMaskKeepFalse (ks : List (List Cell)) : List Bool :=
  (List.range ks.length).map fun i => decide (2 ≤ ks.count (ks.getD i []))

/-- pandas `duplicated(subset, keep="first")`: row `i` is marked iff an
earlier row has the same key. -/
def dupMaskKeepFirst (ks : List (List Cell)) : List Bool :=
  (List.range ks.length).map fun i => decide (0 < (ks.take i).count (ks.getD i []))

/-- pandas `duplicated(subset, keep="last")`: row `i` is marked iff a
later row has the same key. -/
def dupMaskKeepLast (ks : List (List Cell)) : List Bool :=
  (List.range ks.length).map fun i => decide (0 < (ks.drop (i + 1)).count (ks.getD i []))

/-- Key tuples of the normalized table: what `duplicated` compares at
line 335-339 after line 331 built `df_normalized`. -/
def normKeys (t : Table) (subset : List String) : List (List Cell) :=
  tableKeys (normalize_data_for_comparison t subset) subset

/-- The duplicate mask computed at lines 334-341 of `app.py`: the
normalized table is built first, then `duplicated` runs on it with the
`keep` argument selected by `duplicate_type`; any unknown policy string
falls through to the `keep=False` branch. -/
def analysisMask (t : Table) (subset : List String) (policy : String) : List Bool :=
  let ks := normKeys t subset
  if policy = "all" then dupMaskKeepFalse ks
  else if policy = "except_first" then dupMaskKeepFirst ks
  else if policy = "except_last" then dupMaskKeepLast ks
  else dupMaskKeepFalse ks

/-! ## The partition (`duplicates = df[mask]`, `cleaned_df = df[~mask]`,
lines 343-344) -/

/-- Boolean-mask row selection `df[mask]`: keep entries whose mask bit is
true, in order. -/
def maskSelect (rows : List (List Cell)) (mask : List Bool) : List (List Cell) :=
  ((rows.zip mask).filter (fun p => p.2)).map Prod.fst

/-- `duplicates = df[mask].copy()` (line 343): original rows where the
analysis mask is true. -/
def duplicatesOf (t : Table) (subset : List String) (policy : String) : Table :=
  ⟨t.header, maskSelect t.rows (analysisMask t subset policy)⟩

/-- `cleaned_df = df[~mask].copy()` (line 344): original rows where the
analysis mask is false. -/
def cleanedOf (t : Table) (subset : List String) (policy : String) : Table :=
  ⟨t.header, maskSelect t.rows ((analysisMask t subset policy).map not)⟩

/-! ## Quality analysis (`analyze_data_quality`, lines 41-73) -/

/-- Total count of null cells (`df.isnull().sum().sum()`). -/
def blankCells (t : Table) : ℕ :=
  (t.rows.map fun r => r.countP fun c => c.isNull).sum

/-- The blank percentage of line 48:
`round((blank / (rows * cols)) * 100, 2) if len(df) > 0 else 0`.
The division is numpy float division; when the table has rows but no
columns the denominator is zero and the quotient is the float NaN,
modelled as `none`. -/
def blankPercentage (t : Table) : Option ℚ :=
  if 0 < t.rows.length then
    if t.rows.length * t.header.length = 0 then none
    else some (pyRound 2 ((blankCells t : ℚ) / ((t.rows.length : ℚ) * (t.header.length : ℚ)) * 100))
  else some 0

/-- The fields of the record built by `analyze_data_quality` that the
verified properties are about (the remaining fields are presentation
strings and per-column statistics). -/
structure AnalysisRecord where
  total_rows : ℕ
  total_columns : ℕ
  blank_cells : ℕ
  blank_percentage : Option ℚ
deriving DecidableEq

/-- `analyze_data_quality(df)` restricted to the verified fields
(lines 43-51 of `app.py`). -/
def analyze_data_quality (t : Table) : AnalysisRecord :=
  { total_rows := t.rows.length
    total_columns := t.header.length
    blank_cells := blankCells t
    blank_percentage := blankPercentage t }

/-! ## Column selection and the request outcome (lines 326-381) -/

/-- Line 326: `[col for col in selected_columns if col in df.columns]`. -/
def validColumns (t : Table) (selected : List String) : List String :=
  selected.filter fun c => c ∈ t.colNames

/-- Outcome of the duplicate-analysis part of one request: the computed
partition when it exists, the error message if any, and whether the
plain (un-highlighted) preview branch was taken. -/
structure SelectionOutcome where
  partition : Option (List Bool × Table × Table)
  errorMsg : Option String
  plainPreview : Bool
deriving DecidableEq

/-- The branch structure of lines 326-381 of `app.py`: with at least one
valid column the mask and partition are computed; otherwise no partition
is computed, the plain preview is rendered, and a descriptive message is
set only when the request did select columns. -/
def processSelection (t : Table) (selected : List String) (policy : String) : SelectionOutcome :=
  let valid := validColumns t selected
  if valid.isEmpty then
    { partition := none
      errorMsg :=
        if selected.isEmpty then none
        else some "Selected columns not found in the data. Please check column names."
      plainPreview := true }
  else
    { partition := some (analysisMask t valid policy, duplicatesOf t valid policy, cleanedOf t valid policy)
      errorMsg := none
      plainPreview := false }

/-! ## The styled preview (`highlight_duplicates`, lines 75-101, called at
line 358 on `df.head(20)`) -/

/-- `df.head(n)`. -/
def Table.head (t : Table) (n : ℕ) : Table :=
  ⟨t.header, t.rows.take n⟩

/-- The mask computed inside `highlight_duplicates` (lines 79-86): pandas
`duplicated` on the frame it receives, with no normalization.  At the
call site of line 358 that frame is the raw `df.head(20)`. -/
def highlightMask (t : Table) (subset : List String) (policy : String) : List Bool :=
  let ks := tableKeys t subset
  if policy = "all" then dupMaskKeepFalse ks
  else if policy = "except_first" then dupMaskKeepFirst ks
  else if policy = "except_last" then dupMaskKeepLast ks
  else dupMaskKeepFalse ks

/-- The rows styled as duplicates in the 20-row preview of line 358:
`highlight_duplicates(df.head(20), valid_columns, duplicate_type)`
recomputes its mask on the truncated, un-normalized frame. -/
def previewStyledMask (t : Table) (subset : List String) (policy : String) : List Bool :=
  highlightMask (t.head 20) subset policy

/-- The textual normalization exactly as the specification words it:
trim leading and trailing whitespace, lower-case, collapse internal runs
of whitespace to one space, then map any of the resulting strings "nan",
"none", "null", or the empty string to the missing-value marker.  Stated
separately from `normalizeCell` so the code can be proved to refine the
specification sentence. -/
def specTextNormalize (s : String) : Cell :=
  let t := String.mk (collapseWS ((stripChars s.data).map lowerChar))
  if t = "nan" ∨ t = "none" ∨ t = "null" ∨ t = "" then Cell.NA else Cell.str t

/-! ## Concrete tables used as witnesses and counterexamples -/

/-- The three-row scenario table of the specification:
rows (1, "Alice"), (2, "alice "), (3, "Bob"). -/
def scenarioTable : Table :=
  ⟨[("id", .int), ("name", .object)],
   [[.int 1, .str "Alice"], [.int 2, .str "alice "], [.int 3, .str "Bob"]]⟩

/-- A table with one row and no columns (in pandas:
a DataFrame with a one-element index and an empty column set). -/
def noColumnTable : Table := ⟨[], [[]]⟩

/-- One object column whose single cell is the empty string, which
normalization canonicalizes to the missing marker. -/
def blankStringTable : Table := ⟨[("name", .object)], [[.str ""]]⟩

/-- Two rows whose names differ only by case and trailing whitespace. -/
def caseWhitespaceTable : Table :=
  ⟨[("name", .object)], [[.str "Alice "], [.str "alice"]]⟩

/-- One float column with two values that differ only below the sixth
decimal place. -/
def floatTable : Table :=
  ⟨[("x", .float)], [[.float (10000001 / 10000000)], [.float (10000004 / 10000000)]]⟩

/-! ## Structural lemmas: shape preservation of the normalizer -/

theorem normalizeColumn_header (t : Table) (c : String) :
    (normalizeColumn t c).header = t.header := by
  unfold normalizeColumn
  cases t.header.findIdx? (fun p => p.1 = c) <;> rfl

theorem normalizeColumn_rows_length (t : Table) (c : String) :
    (normalizeColumn t c).rows.length = t.rows.length := by
  unfold normalizeColumn
  cases t.header.findIdx? (fun p => p.1 = c) <;> simp

theorem normalize_header (t : Table) (cols : List String) :
    (normalize_data_for_comparison t cols).header = t.header := by
  induction cols generalizing t with
  | nil => rfl
  | cons c cs ih =>
    unfold normalize_data_for_comparison at ih ⊢
    rw [List.foldl_cons, ih, normalizeColumn_header]

theorem normalize_rows_length (t : Table) (cols : List String) :
    (normalize_data_for_comparison t cols).rows.length = t.rows.length := by
  induction cols generalizing t with
  | nil => rfl
  | cons c cs ih =>
    unfold normalize_data_for_comparison at ih ⊢
    rw [List.foldl_cons, ih, normalizeColumn_rows_length]

/-! ## Mask lemmas -/

theorem dupMaskKeepFalse_length (ks : List (List Cell)) :
    (dupMaskKeepFalse ks).length = ks.length := by
  simp [dupMaskKeepFalse]

theorem dupMaskKeepFirst_length (ks : List (List Cell)) :
    (dupMaskKeepFirst ks).length = ks.length := by
  simp [dupMaskKeepFirst]

theorem dupMaskKeepLast_length (ks : List (List Cell)) :
    (dupMaskKeepLast ks).length = ks.length := by
  simp [dupMaskKeepLast]

theorem tableKeys_length (t : Table) (subset : List String) :
    (tableKeys t subset).length = t.rows.length := by
  simp [tableKeys]

theorem normKeys_length (t : Table) (subset : List String) :
    (normKeys t subset).length = t.rows.length := by
  rw [normKeys, tableKeys_length, normalize_rows_length]

theorem analysisMask_length (t : Table) (subset : List String) (policy : String) :
    (analysisMask t subset policy).length = t.rows.length := by
  unfold analysisMask
  split
  · rw [dupMaskKeepFalse_length, normKeys_length]
  split
  · rw [dupMaskKeepFirst_length, normKeys_length]
  split
  · rw [dupMaskKeepLast_length, normKeys_length]
  · rw [dupMaskKeepFalse_length, normKeys_length]

theorem dupMaskKeepFalse_getD (ks : List (List Cell)) (i : ℕ) (hi : i < ks.length) :
    (dupMaskKeepFalse ks).getD i false = decide (2 ≤ ks.count (ks.getD i [])) := by
  have h : i < (dupMaskKeepFalse ks).length := by rw [dupMaskKeepFalse_length]; exact hi
  rw [List.getD_eq_getElem _ _ h]
  simp [dupMaskKeepFalse]

theorem dupMaskKeepFirst_getD (ks : List (List Cell)) (i : ℕ) (hi : i < ks.length) :
    (dupMaskKeepFirst ks).getD i false = decide (0 < (ks.take i).count (ks.getD i [])) := by
  have h : i < (dupMaskKeepFirst ks).length := by rw [dupMaskKeepFirst_length]; exact hi
  rw [List.getD_eq_getElem _ _ h]
  simp [dupMaskKeepFirst]

theorem dupMaskKeepLast_getD (ks : List (List Cell)) (i : ℕ) (hi : i < ks.length) :
    (dupMaskKeepLast ks).getD i false = decide (0 < (ks.drop (i + 1)).count (ks.getD i [])) := by
  have h : i < (dupMaskKeepLast ks).length := by rw [dupMaskKeepLast_length]; exact hi
  rw [List.getD_eq_getElem _ _ h]
  simp [dupMaskKeepLast]

/-! ## Selection lemmas (`df[mask]`) -/

theorem maskSelect_length_add (rows : List (List Cell)) (mask : List Bool)
    (h : mask.length = rows.length) :
    (maskSelect rows mask).length + (maskSelect rows (mask.map not)).length = rows.length := by
  induction rows generalizing mask with
  | nil => simp [maskSelect]
  | cons r rs ih =>
    cases mask with
    | nil => simp at h
    | cons b bs =>
      have hb : bs.length = rs.length := by simpa using h
      have ihb := ih bs hb
      simp only [maskSelect, List.zip_cons_cons, List.map_cons, List.length_map] at ihb ⊢
      cases b <;> simp only [List.filter_cons, Bool.not_true, Bool.not_false] <;>
        simp [List.length_map] <;> omega

theorem maskSelect_append_perm (rows : List (List Cell)) (mask : List Bool)
    (h : mask.length = rows.length) :
    (maskSelect rows mask ++ maskSelect rows (mask.map not)).Perm rows := by
  induction rows generalizing mask with
  | nil => simp [maskSelect]
  | cons r rs ih =>
    cases mask with
    | nil => simp at h
    | cons b bs =>
      have hb : bs.length = rs.length := by simpa using h
      cases b with
      | true =>
        simpa [maskSelect, List.zip_cons_cons] using (ih bs hb).cons r
      | false =>
        have he : maskSelect (r :: rs) (false :: bs) ++ maskSelect (r :: rs) ((false :: bs).map not)
            = maskSelect rs bs ++ r :: maskSelect rs (bs.map not) := by
          simp [maskSelect, List.zip_cons_cons]
        rw [he]
        exact List.perm_middle.trans ((ih bs hb).cons r)

theorem maskSelect_sublist (rows : List (List Cell)) (mask : List Bool) :
    (maskSelect rows mask).Sublist rows := by
  induction rows generalizing mask with
  | nil => simp [maskSelect]
  | cons r rs ih =>
    cases mask with
    | nil => simp [maskSelect]
    | cons b bs =>
      cases b with
      | true =>
        simpa [maskSelect, List.zip_cons_cons] using (ih bs).cons₂ r
      | false =>
        have : maskSelect (r :: rs) (false :: bs) = maskSelect rs bs := by
          simp [maskSelect, List.zip_cons_cons]
        rw [this]
        exact (ih bs).cons r

/-! ## Claim C2: the duplicate/cleaned partition is exact -/

/-- C2: for every table, non-empty valid key-column set and policy, the
`duplicates` subset (mask true) and the `cleaned` subset (mask false)
partition the table exactly: the row counts add up to the total row
count, the multiset of rows of the two subsets together equals the
multiset of rows of the table (no row dropped or duplicated), and each
subset keeps the original row order (it is a sublist of the rows). -/
theorem C2_partition_exact (t : Table) (subset : List String) (policy : String)
    (_hwf : t.wf = true) (_hne : subset ≠ [])
    (_hsub : ∀ c ∈ subset, c ∈ t.colNames) :
    (duplicatesOf t subset policy).rows.length + (cleanedOf t subset policy).rows.length
        = t.rows.length ∧
    (((duplicatesOf t subset policy).rows ++ (cleanedOf t subset policy).rows : List (List Cell))
        : Multiset (List Cell)) = (t.rows : Multiset (List Cell)) ∧
    (duplicatesOf t subset policy).rows.Sublist t.rows ∧
    (cleanedOf t subset policy).rows.Sublist t.rows := by
  have hm : (analysisMask t subset policy).length = t.rows.length :=
    analysisMask_length t subset policy
  refine ⟨maskSelect_length_add t.rows _ hm, ?_, maskSelect_sublist t.rows _,
    maskSelect_sublist t.rows _⟩
  exact Multiset.coe_eq_coe.2 (maskSelect_append_perm t.rows _ hm)

/-- Witness for C2 at the scenario table with key column "name" and
policy `all`. -/
theorem C2_partition_exact_witness :
    scenarioTable.wf = true ∧ (["name"] : List String) ≠ [] ∧
    (∀ c ∈ (["name"] : List String), c ∈ scenarioTable.colNames) ∧
    ((duplicatesOf scenarioTable ["name"] "all").rows.length
        + (cleanedOf scenarioTable ["name"] "all").rows.length
        = scenarioTable.rows.length ∧
    (((duplicatesOf scenarioTable ["name"] "all").rows
        ++ (cleanedOf scenarioTable ["name"] "all").rows : List (List Cell))
        : Multiset (List Cell)) = (scenarioTable.rows : Multiset (List Cell)) ∧
    (duplicatesOf scenarioTable ["name"] "all").rows.Sublist scenarioTable.rows ∧
    (cleanedOf scenarioTable ["name"] "all").rows.Sublist scenarioTable.rows) :=
  ⟨by decide, by decide, by decide,
    C2_partition_exact scenarioTable ["name"] "all" (by decide) (by decide) (by decide)⟩

/-! ## Claim C8: column-selection filtering and the no-valid-column fallback -/

/-- C8: the key used for duplicate detection is the filtered list of
requested columns that exist in the table (membership in the filtered
list is exactly joint membership in the request and in the table, so
nonexistent names are dropped silently); when a nonempty filtered list
exists the partition is computed and no error is raised; when no
requested column exists, no partition is computed, the plain preview
branch is taken, and a descriptive message is set exactly when the
request did select columns. -/
theorem C8_selection_fallback (t : Table) (selected : List String) (policy : String) :
    (∀ c, c ∈ validColumns t selected ↔ c ∈ selected ∧ c ∈ t.colNames) ∧
    (validColumns t selected ≠ [] →
      (processSelection t selected policy).partition
          = some (analysisMask t (validColumns t selected) policy,
                  duplicatesOf t (validColumns t selected) policy,
                  cleanedOf t (validColumns t selected) policy) ∧
      (processSelection t selected policy).errorMsg = none) ∧
    (validColumns t selected = [] →
      (processSelection t selected policy).partition = none ∧
      (processSelection t selected policy).plainPreview = true ∧
      (selected ≠ [] → (processSelection t selected policy).errorMsg
          = some "Selected columns not found in the data. Please check column names.")) := by
  refine ⟨?_, ?_, ?_⟩
  · intro c
    simp [validColumns, List.mem_filter]
  · intro hne
    have h : (validColumns t selected).isEmpty = false := by
      cases hv : validColumns t selected with
      | nil => exact absurd hv hne
      | cons a l => simp
    simp [processSelection, h]
  · intro hv
    have h : (validColumns t selected).isEmpty = true := by simp [hv]
    refine ⟨by simp [processSelection, h], by simp [processSelection, h], ?_⟩
    intro hsel
    have hs : selected.isEmpty = false := by
      cases hse : selected with
      | nil => exact absurd hse hsel
      | cons a l => simp
    simp [processSelection, h, hs]

/-- Witness for C8 at the scenario table with a request naming only a
nonexistent column. -/
theorem C8_selection_fallback_witness :
    validColumns scenarioTable ["ghost"] = [] ∧ (["ghost"] : List String) ≠ [] ∧
    (processSelection scenarioTable ["ghost"] "all").partition = none ∧
    (processSelection scenarioTable ["ghost"] "all").plainPreview = true ∧
    (processSelection scenarioTable ["ghost"] "all").errorMsg
        = some "Selected columns not found in the data. Please check column names." := by
  have h := (C8_selection_fallback scenarioTable ["ghost"] "all").2.2 (by decide)
  exact ⟨by decide, by decide, h.1, h.2.1, h.2.2 (by decide)⟩

/-! ## Claim C10: unknown policy strings fall back to the `all` mask -/

/-- C10: when the supplied retention-policy string is none of "all",
"except_first", "except_last", the analysis mask equals the mask of the
`all` policy (the final `else` of lines 340-341), rather than being an
error or missing. -/
theorem C10_unknown_policy_all (t : Table) (subset : List String) (policy : String)
    (h1 : policy ≠ "all") (h2 : policy ≠ "except_first") (h3 : policy ≠ "except_last") :
    analysisMask t subset policy = analysisMask t subset "all" := by
  unfold analysisMask
  rw [if_neg h1, if_neg h2, if_neg h3, if_pos rfl]

/-- Witness for C10 at the scenario table with the unknown policy
string "keep_best". -/
theorem C10_unknown_policy_all_witness :
    ("keep_best" : String) ≠ "all" ∧ ("keep_best" : String) ≠ "except_first" ∧
    ("keep_best" : String) ≠ "except_last" ∧
    analysisMask scenarioTable ["name"] "keep_best" = analysisMask scenarioTable ["name"] "all" :=
  ⟨by decide, by decide, by decide,
    C10_unknown_policy_all scenarioTable ["name"] "keep_best" (by decide) (by decide) (by decide)⟩

/-! ## Claim C9: the styled 20-row preview does not follow the analysis mask -/

/-- C9 (code bug evidence): on the two-row table whose names are
"Alice " and "alice", the analysis mask (computed over the normalized
table, lines 334-341) flags both rows and the duplicates subset has two
rows, but `highlight_duplicates(df.head(20), ...)` (line 358) recomputes
its mask on the raw, un-normalized preview frame and styles no row as a
duplicate.  The styled preview therefore disagrees with the duplicate
mask that drives the partition. -/
theorem C9_preview_mask_mismatch :
    previewStyledMask caseWhitespaceTable ["name"] "all" = [false, false] ∧
    (analysisMask caseWhitespaceTable ["name"] "all").take 20 = [true, true] ∧
    (duplicatesOf caseWhitespaceTable ["name"] "all").rows.length = 2 := by
  decide

/-! ## Rounding bounds -/

theorem rhe_nonneg (q : ℚ) (h : 0 ≤ q) : 0 ≤ rhe q := by
  have hf : (0 : ℤ) ≤ ⌊q⌋ := Int.floor_nonneg.2 h
  unfold rhe
  split
  · exact hf
  split
  · omega
  split <;> omega

theorem rhe_le (q : ℚ) (M : ℤ) (h : q ≤ (M : ℚ)) : rhe q ≤ M := by
  have hf : ⌊q⌋ ≤ M := by
    have := Int.floor_le_floor h
    simpa using this
  have hfl : (⌊q⌋ : ℚ) ≤ q := Int.floor_le q
  unfold rhe
  split
  · exact hf
  · have h1 : ¬(q - ⌊q⌋ < 1/2) := by assumption
    have h2 : (1:ℚ)/2 ≤ q - ⌊q⌋ := le_of_not_lt h1
    have h3 : (⌊q⌋ : ℚ) + 1/2 ≤ (M : ℚ) := by linarith
    have h4 : ⌊q⌋ < M := by
      by_contra hc
      push_neg at hc
      have : (M : ℚ) ≤ (⌊q⌋ : ℚ) := by exact_mod_cast hc
      linarith
    split
    · omega
    split <;> omega

theorem rhe_intCast (k : ℤ) : rhe (k : ℚ) = k := by
  unfold rhe
  rw [Int.floor_intCast]
  rw [if_pos (by norm_num)]

theorem pyRound_nonneg (k : ℕ) (q : ℚ) (h : 0 ≤ q) : 0 ≤ pyRound k q := by
  unfold pyRound
  apply div_nonneg _ (by positivity)
  exact_mod_cast rhe_nonneg _ (by positivity)

theorem pyRound_le (k : ℕ) (q : ℚ) (M : ℤ) (h : q ≤ (M : ℚ)) : pyRound k q ≤ (M : ℚ) := by
  unfold pyRound
  rw [div_le_iff₀ (by positivity)]
  have hb : rhe (q * 10 ^ k) ≤ M * 10 ^ k := by
    apply rhe_le
    push_cast
    have hp : (0:ℚ) < 10 ^ k := by positivity
    nlinarith
  exact_mod_cast hb

theorem pyRound_idem (k : ℕ) (q : ℚ) : pyRound k (pyRound k q) = pyRound k q := by
  unfold pyRound
  have hc : ((10:ℚ) ^ k) ≠ 0 := by positivity
  rw [div_mul_cancel₀ _ hc, rhe_intCast]

/-! ## Well-formedness projections -/

theorem wf_nodup (t : Table) (h : t.wf = true) : t.colNames.Nodup := by
  unfold Table.wf at h
  rw [Bool.and_eq_true] at h
  exact of_decide_eq_true h.1

theorem wf_rows (t : Table) (h : t.wf = true) (r : List Cell) (hr : r ∈ t.rows) :
    r.length = t.header.length ∧
    ∀ j < t.header.length,
      cellFits (t.header.getD j ("", .object)).2 (r.getD j Cell.nan) = true := by
  unfold Table.wf at h
  rw [Bool.and_eq_true, List.all_eq_true] at h
  have hr2 := h.2 r hr
  rw [Bool.and_eq_true] at hr2
  refine ⟨of_decide_eq_true hr2.1, ?_⟩
  intro j hj
  have := (List.all_eq_true).1 hr2.2 j (by simpa using hj)
  exact this

theorem blankCells_le (t : Table) (h : t.wf = true) :
    blankCells t ≤ t.rows.length * t.header.length := by
  unfold blankCells
  have hb : ∀ x ∈ t.rows.map (fun r => r.countP fun c => c.isNull), x ≤ t.header.length := by
    intro x hx
    obtain ⟨r, hr, rfl⟩ := List.mem_map.1 hx
    calc r.countP (fun c => c.isNull) ≤ r.length := List.countP_le_length _
      _ = t.header.length := (wf_rows t h r hr).1
  calc (t.rows.map (fun r => r.countP fun c => c.isNull)).sum
      ≤ (t.rows.map (fun r => r.countP fun c => c.isNull)).length • t.header.length :=
        List.sum_le_card_nsmul _ _ hb
    _ = t.rows.length * t.header.length := by simp [smul_eq_mul]

/-! ## Claim C7: the blank percentage (corrected) -/

/-- C7 counterexample: on a table with one row and no columns the code
guard `if len(df) > 0` does not fire, the denominator `rows * cols` is
zero, and the numpy float division yields NaN (modelled `none`), so the
blank percentage is not 0 as the claim asserts for every table with zero
columns. -/
theorem C7_zero_columns_counterexample :
    (analyze_data_quality noColumnTable).total_rows = 1 ∧
    (analyze_data_quality noColumnTable).total_columns = 0 ∧
    (analyze_data_quality noColumnTable).blank_percentage = none ∧
    (analyze_data_quality noColumnTable).blank_percentage ≠ some 0 := by
  decide

/-- C7 (amended): for every well-formed table the blank percentage is 0
when there are zero rows, and whenever the table has at least one row
and at least one column it equals missing-count / (rows x columns) x 100
rounded half-even to 2 decimals and lies in [0, 100].  (With rows
present but zero columns the division yields NaN, not 0; see the
counterexample.) -/
theorem C7_blank_percentage (t : Table) (hwf : t.wf = true) :
    (t.rows.length = 0 → (analyze_data_quality t).blank_percentage = some 0) ∧
    (0 < t.rows.length → 0 < t.header.length →
      (analyze_data_quality t).blank_percentage
          = some (pyRound 2 ((blankCells t : ℚ)
              / ((t.rows.length : ℚ) * (t.header.length : ℚ)) * 100)) ∧
      ∃ p, (analyze_data_quality t).blank_percentage = some p ∧ 0 ≤ p ∧ p ≤ 100) := by
  constructor
  · intro h0
    unfold analyze_data_quality blankPercentage
    rw [h0]
    simp
  · intro hr hc
    have hne : ¬(t.rows.length * t.header.length = 0) := by positivity
    have heq : (analyze_data_quality t).blank_percentage
        = some (pyRound 2 ((blankCells t : ℚ)
            / ((t.rows.length : ℚ) * (t.header.length : ℚ)) * 100)) := by
      unfold analyze_data_quality blankPercentage
      rw [if_pos hr, if_neg hne]
    refine ⟨heq, _, heq, ?_, ?_⟩
    · apply pyRound_nonneg
      have hd : (0:ℚ) < (t.rows.length : ℚ) * (t.header.length : ℚ) := by positivity
      positivity
    · have hd : (0:ℚ) < (t.rows.length : ℚ) * (t.header.length : ℚ) := by positivity
      have hratio : (blankCells t : ℚ) / ((t.rows.length : ℚ) * (t.header.length : ℚ)) ≤ 1 := by
        rw [div_le_one hd]
        exact_mod_cast blankCells_le t hwf
      have h100 : (blankCells t : ℚ) / ((t.rows.length : ℚ) * (t.header.length : ℚ)) * 100
          ≤ ((100 : ℤ) : ℚ) := by
        push_cast
        nlinarith
      exact_mod_cast pyRound_le 2 _ 100 h100

/-- Witness for the amended C7 at the scenario table (3 rows, 2 columns,
no blanks: the percentage is a number in range). -/
theorem C7_blank_percentage_witness :
    scenarioTable.wf = true ∧ 0 < scenarioTable.rows.length ∧ 0 < scenarioTable.header.length ∧
    ((analyze_data_quality scenarioTable).blank_percentage
        = some (pyRound 2 ((blankCells scenarioTable : ℚ)
            / ((scenarioTable.rows.length : ℚ) * (scenarioTable.header.length : ℚ)) * 100)) ∧
      ∃ p, (analyze_data_quality scenarioTable).blank_percentage = some p ∧ 0 ≤ p ∧ p ≤ 100) :=
  ⟨by decide, by decide, by decide,
    (C7_blank_percentage scenarioTable (by decide)).2 (by decide) (by decide)⟩

/-! ## Counting lemmas for the duplicate masks -/

theorem two_le_count_of_lt (ks : List (List Cell)) (i j : ℕ) (hj : j < ks.length)
    (hlt : i < j) (heq : ks.getD i [] = ks.getD j []) :
    2 ≤ ks.count (ks.getD i []) := by
  have hi : i < ks.length := lt_trans hlt hj
  have hcount : ks.count (ks.getD i [])
      = (ks.take j).count (ks.getD i []) + (ks.drop j).count (ks.getD i []) := by
    set k := ks.getD i [] with hk
    conv_lhs => rw [← List.take_append_drop j ks]
    exact List.count_append k (ks.take j) (ks.drop j)
  have h1 : 0 < (ks.take j).count (ks.getD i []) := by
    rw [List.count_pos_iff]
    have hij : i < (ks.take j).length := by
      rw [List.length_take]
      omega
    have ht : (ks.take j)[i] = ks[i] := List.getElem_take ks
    rw [List.getD_eq_getElem ks [] hi, ← ht]
    exact List.getElem_mem hij
  have h2 : 0 < (ks.drop j).count (ks.getD i []) := by
    rw [heq, List.getD_eq_getElem ks [] hj, List.drop_eq_getElem_cons hj,
      List.count_cons_self]
    omega
  omega

theorem two_le_count_of_ne (ks : List (List Cell)) (i j : ℕ) (hi : i < ks.length)
    (hj : j < ks.length) (hne : i ≠ j) (heq : ks.getD i [] = ks.getD j []) :
    2 ≤ ks.count (ks.getD i []) := by
  rcases lt_or_gt_of_ne hne with hlt | hgt
  · exact two_le_count_of_lt ks i j hj hlt heq
  · rw [heq]
    exact two_le_count_of_lt ks j i hi hgt heq.symm

theorem keepFalse_iff (ks : List (List Cell)) (i : ℕ) (hi : i < ks.length) :
    (dupMaskKeepFalse ks).getD i false = true ↔ 2 ≤ ks.count (ks.getD i []) := by
  rw [dupMaskKeepFalse_getD ks i hi, decide_eq_true_eq]

theorem keepFirst_iff (ks : List (List Cell)) (i : ℕ) (hi : i < ks.length) :
    (dupMaskKeepFirst ks).getD i false = false ↔
      ∀ j, j < ks.length → ks.getD j [] = ks.getD i [] → i ≤ j := by
  rw [dupMaskKeepFirst_getD ks i hi, decide_eq_false_iff_not, Nat.not_lt,
    Nat.le_zero, List.count_eq_zero]
  constructor
  · intro hnot j hj hkey
    by_contra hlt
    push_neg at hlt
    apply hnot
    have hij : j < (ks.take i).length := by
      rw [List.length_take]
      omega
    have ht : (ks.take i)[j] = ks[j] := List.getElem_take ks
    rw [← hkey, List.getD_eq_getElem ks [] hj, ← ht]
    exact List.getElem_mem hij
  · intro hall hmem
    obtain ⟨m, hm, hmeq⟩ := List.mem_iff_getElem.1 hmem
    have hmtake : m < i ∧ m < ks.length := by
      rw [List.length_take] at hm
      omega
    have heq : ks.getD m [] = ks.getD i [] := by
      rw [List.getD_eq_getElem ks [] hmtake.2]
      rw [← List.getElem_take ks (h := hm)]
      exact hmeq
    have := hall m hmtake.2 heq
    omega

theorem keepLast_iff (ks : List (List Cell)) (i : ℕ) (hi : i < ks.length) :
    (dupMaskKeepLast ks).getD i false = false ↔
      ∀ j, j < ks.length → ks.getD j [] = ks.getD i [] → j ≤ i := by
  rw [dupMaskKeepLast_getD ks i hi, decide_eq_false_iff_not, Nat.not_lt,
    Nat.le_zero, List.count_eq_zero]
  constructor
  · intro hnot j hj hkey
    by_contra hlt
    push_neg at hlt
    apply hnot
    have hij : j - (i + 1) < (ks.drop (i + 1)).length := by
      rw [List.length_drop]
      omega
    have ht : (ks.drop (i + 1))[j - (i + 1)] = ks[i + 1 + (j - (i + 1))] :=
      List.getElem_drop ks
    rw [← hkey, List.getD_eq_getElem ks [] hj]
    have hjj : ks[j] = (ks.drop (i + 1))[j - (i + 1)] := by
      rw [ht]
      congr 1
      omega
    rw [hjj]
    exact List.getElem_mem hij
  · intro hall hmem
    obtain ⟨m, hm, hmeq⟩ := List.mem_iff_getElem.1 hmem
    have hmlen : i + 1 + m < ks.length := by
      rw [List.length_drop] at hm
      omega
    have heq : ks.getD (i + 1 + m) [] = ks.getD i [] := by
      rw [List.getD_eq_getElem ks [] hmlen]
      rw [← List.getElem_drop ks (h := hm)]
      exact hmeq
    have := hall (i + 1 + m) hmlen heq
    omega

theorem analysisMask_all (t : Table) (subset : List String) :
    analysisMask t subset "all" = dupMaskKeepFalse (normKeys t subset) := rfl

theorem analysisMask_except_first (t : Table) (subset : List String) :
    analysisMask t subset "except_first" = dupMaskKeepFirst (normKeys t subset) := rfl

theorem analysisMask_except_last (t : Table) (subset : List String) :
    analysisMask t subset "except_last" = dupMaskKeepLast (normKeys t subset) := rfl

/-! ## Claim C1: semantics of the duplicate mask under each policy -/

/-- C1: over the normalized key tuples, policy `all` flags row `i` iff
its key occurs at least twice; `except_first` leaves row `i` unflagged
iff `i` is the smallest row position carrying its key (so every other
member of a group of two or more is flagged); `except_last` leaves row
`i` unflagged iff `i` is the largest such position; and under each of
the three policies a row whose key occurs exactly once is never
flagged. -/
theorem C1_mask_semantics (t : Table) (subset : List String) (policy : String)
    (_hwf : t.wf = true) (_hne : subset ≠ []) (_hsub : ∀ c ∈ subset, c ∈ t.colNames) :
    (policy = "all" →
      ∀ i, i < t.rows.length →
        ((analysisMask t subset policy).getD i false = true ↔
          2 ≤ (normKeys t subset).count ((normKeys t subset).getD i []))) ∧
    (policy = "except_first" →
      ∀ i, i < t.rows.length →
        ((analysisMask t subset policy).getD i false = false ↔
          ∀ j, j < t.rows.length →
            (normKeys t subset).getD j [] = (normKeys t subset).getD i [] → i ≤ j)) ∧
    (policy = "except_last" →
      ∀ i, i < t.rows.length →
        ((analysisMask t subset policy).getD i false = false ↔
          ∀ j, j < t.rows.length →
            (normKeys t subset).getD j [] = (normKeys t subset).getD i [] → j ≤ i)) ∧
    ((policy = "all" ∨ policy = "except_first" ∨ policy = "except_last") →
      ∀ i, i < t.rows.length →
        (normKeys t subset).count ((normKeys t subset).getD i []) = 1 →
        (analysisMask t subset policy).getD i false = false) := by
  have hlen : (normKeys t subset).length = t.rows.length := normKeys_length t subset
  refine ⟨?_, ?_, ?_, ?_⟩
  · rintro rfl i hi
    rw [analysisMask_all]
    exact keepFalse_iff _ i (by omega)
  · rintro rfl i hi
    rw [analysisMask_except_first]
    rw [keepFirst_iff _ i (by omega)]
    rw [hlen]
  · rintro rfl i hi
    rw [analysisMask_except_last]
    rw [keepLast_iff _ i (by omega)]
    rw [hlen]
  · intro hp i hi hcount
    have hi2 : i < (normKeys t subset).length := by omega
    rcases hp with rfl | rfl | rfl
    · rw [analysisMask_all, dupMaskKeepFalse_getD _ i hi2]
      exact decide_eq_false (by omega)
    · rw [analysisMask_except_first]
      refine (keepFirst_iff _ i hi2).2 ?_
      intro j hj hkey
      by_contra hgt
      push_neg at hgt
      have h2 := two_le_count_of_ne (normKeys t subset) i j hi2 (by omega) (by omega) hkey.symm
      omega
    · rw [analysisMask_except_last]
      refine (keepLast_iff _ i hi2).2 ?_
      intro j hj hkey
      by_contra hgt
      push_neg at hgt
      have h2 := two_le_count_of_ne (normKeys t subset) i j hi2 (by omega) (by omega) hkey.symm
      omega

/-- Witness for C1 at the scenario table, key column "name", policy
`except_first`. -/
theorem C1_mask_semantics_witness :
    scenarioTable.wf = true ∧ (["name"] : List String) ≠ [] ∧
    (∀ c ∈ (["name"] : List String), c ∈ scenarioTable.colNames) ∧
    ((("except_first" : String) = "all" →
      ∀ i, i < scenarioTable.rows.length →
        ((analysisMask scenarioTable ["name"] "except_first").getD i false = true ↔
          2 ≤ (normKeys scenarioTable ["name"]).count
              ((normKeys scenarioTable ["name"]).getD i []))) ∧
    (("except_first" : String) = "except_first" →
      ∀ i, i < scenarioTable.rows.length →
        ((analysisMask scenarioTable ["name"] "except_first").getD i false = false ↔
          ∀ j, j < scenarioTable.rows.length →
            (normKeys scenarioTable ["name"]).getD j []
                = (normKeys scenarioTable ["name"]).getD i [] → i ≤ j)) ∧
    (("except_first" : String) = "except_last" →
      ∀ i, i < scenarioTable.rows.length →
        ((analysisMask scenarioTable ["name"] "except_first").getD i false = false ↔
          ∀ j, j < scenarioTable.rows.length →
            (normKeys scenarioTable ["name"]).getD j []
                = (normKeys scenarioTable ["name"]).getD i [] → j ≤ i)) ∧
    ((("except_first" : String) = "all" ∨ ("except_first" : String) = "except_first"
        ∨ ("except_first" : String) = "except_last") →
      ∀ i, i < scenarioTable.rows.length →
        (normKeys scenarioTable ["name"]).count
            ((normKeys scenarioTable ["name"]).getD i []) = 1 →
        (analysisMask scenarioTable ["name"] "except_first").getD i false = false)) :=
  ⟨by decide, by decide, by decide,
    C1_mask_semantics scenarioTable ["name"] "except_first" (by decide) (by decide) (by decide)⟩

theorem getD_set_ne (r : List Cell) (j j2 : ℕ) (v : Cell) (hne : j2 ≠ j) :
    (r.set j2 v).getD j Cell.nan = r.getD j Cell.nan := by
  by_cases hj : j < r.length
  · have hj2 : j < (r.set j2 v).length := by simpa using hj
    rw [List.getD_eq_getElem _ _ hj2, List.getD_eq_getElem _ _ hj]
    exact List.getElem_set_ne hne _
  · push_neg at hj
    rw [List.getD_eq_default _ _ (by simpa using hj), List.getD_eq_default _ _ hj]

theorem getD_map_rows (rows : List (List Cell)) (f : List Cell → List Cell)
    (hf : f [] = []) (i : ℕ) :
    (rows.map f).getD i [] = f (rows.getD i []) := by
  by_cases hi : i < rows.length
  · rw [List.getD_eq_getElem _ _ (by simpa using hi), List.getD_eq_getElem _ _ hi,
      List.getElem_map]
  · push_neg at hi
    rw [List.getD_eq_default _ _ (by simpa using hi), List.getD_eq_default _ _ hi, hf]

theorem normalizeColumn_eq_none (t : Table) (c : String)
    (h : t.header.findIdx? (fun p => p.1 = c) = none) :
    normalizeColumn t c = t := by
  unfold normalizeColumn
  rw [h]

theorem normalizeColumn_eq_some (t : Table) (c : String) (j2 : ℕ)
    (h : t.header.findIdx? (fun p => p.1 = c) = some j2) :
    normalizeColumn t c = ⟨t.header, t.rows.map fun r =>
      r.set j2 (normalizeCell (t.header.getD j2 ("", .object)).2 (r.getD j2 Cell.nan))⟩ := by
  unfold normalizeColumn
  rw [h]

theorem findIdx?_name_at (t : Table) (j2 : ℕ) (c : String)
    (h : t.header.findIdx? (fun p => p.1 = c) = some j2) :
    j2 < t.header.length ∧ (t.header.getD j2 ("", .object)).1 = c := by
  have hprop := (List.findIdx?_eq_some_iff_findIdx_eq).1 h
  have hp2 := ((List.findIdx_eq hprop.1).1 hprop.2).1
  refine ⟨hprop.1, ?_⟩
  rw [List.getD_eq_getElem _ _ hprop.1]
  exact of_decide_eq_true hp2

theorem normalizeColumn_cell_ne (t : Table) (c : String) (i j : ℕ)
    (hj : j < t.header.length) (hname : (t.header.getD j ("", .object)).1 ≠ c) :
    (normalizeColumn t c).cell i j = t.cell i j := by
  cases hfind : t.header.findIdx? (fun p => p.1 = c) with
  | none => rw [normalizeColumn_eq_none t c hfind]
  | some j2 =>
    obtain ⟨hlt, hc2⟩ := findIdx?_name_at t j2 c hfind
    have hne : j2 ≠ j := by
      intro hjj
      subst hjj
      exact hname hc2
    rw [normalizeColumn_eq_some t c j2 hfind]
    show ((t.rows.map fun r =>
        r.set j2 (normalizeCell (t.header.getD j2 ("", .object)).2 (r.getD j2 Cell.nan))).getD i []).getD j Cell.nan
      = t.cell i j
    rw [getD_map_rows _ _ rfl i]
    exact getD_set_ne _ _ _ _ hne

theorem normalize_cell_not_selected (t : Table) (cols : List String) (i j : ℕ)
    (hj : j < t.header.length) (hname : (t.header.getD j ("", .object)).1 ∉ cols) :
    (normalize_data_for_comparison t cols).cell i j = t.cell i j := by
  induction cols generalizing t with
  | nil => rfl
  | cons c cs ih =>
    have hh : (normalizeColumn t c).header = t.header := normalizeColumn_header t c
    unfold normalize_data_for_comparison at ih ⊢
    rw [List.foldl_cons]
    rw [ih (normalizeColumn t c) (by rw [hh]; exact hj)
      (by rw [hh]; exact fun hmem => hname (List.mem_cons_of_mem c hmem))]
    exact normalizeColumn_cell_ne t c i j hj
      (fun heq => hname (heq ▸ List.mem_cons_self c cs))

theorem nodup_getD_inj (l : List String) (hnd : l.Nodup) (m j : ℕ) (hm : m < l.length)
    (hj : j < l.length) (h : l.getD m "" = l.getD j "") : m = j := by
  rw [List.getD_eq_getElem _ _ hm, List.getD_eq_getElem _ _ hj] at h
  exact (List.Nodup.getElem_inj_iff hnd).1 h

theorem findIdx?_nodup_at (t : Table) (j : ℕ) (c : String) (hnd : t.colNames.Nodup)
    (hj : j < t.header.length) (hc : (t.header.getD j ("", .object)).1 = c) :
    t.header.findIdx? (fun p => p.1 = c) = some j := by
  rw [List.getD_eq_getElem _ _ hj] at hc
  rw [List.findIdx?_eq_some_iff_findIdx_eq]
  refine ⟨hj, (List.findIdx_eq hj).2 ⟨by simp [hc], ?_⟩⟩
  intro m hm
  apply decide_eq_false
  intro hceq
  have hmlen : m < t.header.length := lt_trans hm hj
  have hm2 : m < t.colNames.length := by simpa [Table.colNames] using hmlen
  have hj2 : j < t.colNames.length := by simpa [Table.colNames] using hj
  have e1 : t.colNames.getD m "" = c := by
    rw [List.getD_eq_getElem _ _ hm2]
    simp only [Table.colNames, List.getElem_map]
    exact hceq
  have e2 : t.colNames.getD j "" = c := by
    rw [List.getD_eq_getElem _ _ hj2]
    simp only [Table.colNames, List.getElem_map]
    exact hc
  have := nodup_getD_inj t.colNames hnd m j hm2 hj2 (e1.trans e2.symm)
  omega

theorem normalizeColumn_row_lengths (t : Table) (c : String)
    (hlen : ∀ r ∈ t.rows, r.length = t.header.length) :
    ∀ r ∈ (normalizeColumn t c).rows, r.length = t.header.length := by
  intro r hr
  cases hfind : t.header.findIdx? (fun p => p.1 = c) with
  | none =>
    rw [normalizeColumn_eq_none t c hfind] at hr
    exact hlen r hr
  | some j2 =>
    rw [normalizeColumn_eq_some t c j2 hfind] at hr
    obtain ⟨r0, hr0, rfl⟩ := List.mem_map.1 hr
    rw [List.length_set]
    exact hlen r0 hr0

theorem normalizeColumn_cell_self (t : Table) (c : String) (i j : ℕ)
    (hnd : t.colNames.Nodup) (hj : j < t.header.length)
    (hc : (t.header.getD j ("", .object)).1 = c)
    (_hi : i < t.rows.length)
    (hrl : (t.rows.getD i []).length = t.header.length) :
    (normalizeColumn t c).cell i j
      = normalizeCell (t.header.getD j ("", .object)).2 (t.cell i j) := by
  have hfind := findIdx?_nodup_at t j c hnd hj hc
  rw [normalizeColumn_eq_some t c j hfind]
  show ((t.rows.map fun r =>
      r.set j (normalizeCell (t.header.getD j ("", .object)).2 (r.getD j Cell.nan))).getD i []).getD j Cell.nan
    = normalizeCell (t.header.getD j ("", .object)).2 (t.cell i j)
  rw [getD_map_rows _ _ rfl i]
  have hjr : j < ((t.rows.getD i []).set j
      (normalizeCell (t.header.getD j ("", .object)).2 ((t.rows.getD i []).getD j Cell.nan))).length := by
    rw [List.length_set, hrl]
    exact hj
  rw [List.getD_eq_getElem _ _ hjr, List.getElem_set_self]
  rfl

theorem normalize_cell_selected (t : Table) (cols : List String) (i j : ℕ)
    (hnd : t.colNames.Nodup) (hndc : cols.Nodup)
    (hj : j < t.header.length)
    (hmem : (t.header.getD j ("", .object)).1 ∈ cols)
    (hi : i < t.rows.length)
    (hlen : ∀ r ∈ t.rows, r.length = t.header.length) :
    (normalize_data_for_comparison t cols).cell i j
      = normalizeCell (t.header.getD j ("", .object)).2 (t.cell i j) := by
  induction cols generalizing t with
  | nil => simp at hmem
  | cons c cs ih =>
    have hh : (normalizeColumn t c).header = t.header := normalizeColumn_header t c
    have hrowlen : (normalizeColumn t c).rows.length = t.rows.length :=
      normalizeColumn_rows_length t c
    have hlens : ∀ r ∈ (normalizeColumn t c).rows, r.length = (normalizeColumn t c).header.length := by
      rw [hh]
      exact normalizeColumn_row_lengths t c hlen
    have hndt : (normalizeColumn t c).colNames.Nodup := by
      unfold Table.colNames
      rw [hh]
      exact hnd
    unfold normalize_data_for_comparison at ih ⊢
    rw [List.foldl_cons]
    by_cases hcase : (t.header.getD j ("", .object)).1 = c
    · have hnotin : (t.header.getD j ("", .object)).1 ∉ cs := by
        rw [hcase]
        exact (List.nodup_cons.1 hndc).1
      have h1 : (normalize_data_for_comparison (normalizeColumn t c) cs).cell i j
          = (normalizeColumn t c).cell i j :=
        normalize_cell_not_selected (normalizeColumn t c) cs i j
          (by rw [hh]; exact hj) (by rw [hh]; exact hnotin)
      unfold normalize_data_for_comparison at h1
      rw [h1]
      exact normalizeColumn_cell_self t c i j hnd hj hcase hi
        (by
          have : t.rows.getD i [] ∈ t.rows := by
            rw [List.getD_eq_getElem _ _ hi]
            exact List.getElem_mem hi
          exact hlen _ this)
    · have hmem2 : (t.header.getD j ("", .object)).1 ∈ cs := by
        rcases List.mem_cons.1 hmem with h | h
        · exact absurd h hcase
        · exact h
      have hj2 : j < (normalizeColumn t c).header.length := by
        rw [hh]
        exact hj
      have hmem3 : ((normalizeColumn t c).header.getD j ("", .object)).1 ∈ cs := by
        rw [hh]
        exact hmem2
      have hi2 : i < (normalizeColumn t c).rows.length := by
        rw [hrowlen]
        exact hi
      have heq := ih (normalizeColumn t c) hndt (List.nodup_cons.1 hndc).2 hj2 hmem3 hi2 hlens
      rw [heq]
      have hd : (normalizeColumn t c).header.getD j ("", .object)
          = t.header.getD j ("", .object) := by
        rw [hh]
      rw [hd, normalizeColumn_cell_ne t c i j hj hcase]

/-! ## Character-level lemmas -/

theorem toNat_ofNat_valid (n : Nat) (h : n < 55296) : (Char.ofNat n).toNat = n := by
  have hv : n.isValidChar := Or.inl h
  simp [Char.ofNat, hv, Char.ofNatAux, Char.toNat, UInt32.ofNatCore, UInt32.toNat]

theorem lowerChar_toNat (c : Char) (h : 65 ≤ c.toNat ∧ c.toNat ≤ 90) :
    (lowerChar c).toNat = c.toNat + 32 := by
  unfold lowerChar
  rw [if_pos h]
  exact toNat_ofNat_valid _ (by omega)

theorem lowerChar_eq_self (c : Char) (h : ¬(65 ≤ c.toNat ∧ c.toNat ≤ 90)) :
    lowerChar c = c := by
  unfold lowerChar
  rw [if_neg h]

theorem lowerChar_idem (c : Char) : lowerChar (lowerChar c) = lowerChar c := by
  by_cases h : 65 ≤ c.toNat ∧ c.toNat ≤ 90
  · have h2 := lowerChar_toNat c h
    exact lowerChar_eq_self _ (by omega)
  · simp only [lowerChar_eq_self c h]

theorem isWS_lowerChar (c : Char) : isWS (lowerChar c) = isWS c := by
  by_cases h : 65 ≤ c.toNat ∧ c.toNat ≤ 90
  · have h2 := lowerChar_toNat c h
    unfold isWS
    rw [h2]
    simp only [decide_eq_decide]
    omega
  · rw [lowerChar_eq_self c h]

theorem lowerChar_space : lowerChar ' ' = ' ' := by decide

/-! ## Strip and lower commute; whitespace padding is stripped -/

theorem dropWhile_map_lower (l : List Char) :
    (l.map lowerChar).dropWhile isWS = (l.dropWhile isWS).map lowerChar := by
  rw [List.dropWhile_map]
  have hfn : (isWS ∘ lowerChar) = isWS := by
    funext c
    exact isWS_lowerChar c
  rw [hfn]

theorem strip_map_lower (l : List Char) :
    stripChars (l.map lowerChar) = (stripChars l).map lowerChar := by
  unfold stripChars
  rw [dropWhile_map_lower, ← List.map_reverse, dropWhile_map_lower, ← List.map_reverse]

theorem pyStrNormalize_case_invariant (a b : List Char)
    (hab : a.map lowerChar = b.map lowerChar) :
    pyStrNormalize a = pyStrNormalize b := by
  unfold pyStrNormalize
  have ha : (stripChars a).map lowerChar = stripChars (a.map lowerChar) :=
    (strip_map_lower a).symm
  have hb : (stripChars b).map lowerChar = stripChars (b.map lowerChar) :=
    (strip_map_lower b).symm
  rw [ha, hb, hab]

theorem dropWhile_ws_append_of_all (pre l : List Char) (h : ∀ c ∈ pre, isWS c = true) :
    (pre ++ l).dropWhile isWS = l.dropWhile isWS := by
  rw [List.dropWhile_append]
  have hpre : pre.dropWhile isWS = [] := by
    rw [List.dropWhile_eq_nil_iff]
    intro x hx
    exact h x hx
  rw [hpre]
  rfl

theorem strip_ws_left (pre l : List Char) (h : ∀ c ∈ pre, isWS c = true) :
    stripChars (pre ++ l) = stripChars l := by
  unfold stripChars
  rw [dropWhile_ws_append_of_all pre l h]

theorem strip_ws_right (l post : List Char) (h : ∀ c ∈ post, isWS c = true) :
    stripChars (l ++ post) = stripChars l := by
  unfold stripChars
  rw [List.dropWhile_append]
  by_cases he : (l.dropWhile isWS).isEmpty
  · rw [if_pos he]
    have hpost : post.dropWhile isWS = [] := by
      rw [List.dropWhile_eq_nil_iff]
      intro x hx
      exact h x hx
    rw [hpost]
    have hl : l.dropWhile isWS = [] := by
      cases hd : l.dropWhile isWS with
      | nil => rfl
      | cons x xs =>
        rw [hd] at he
        simp at he
    rw [hl]
  · rw [if_neg he]
    rw [List.reverse_append]
    apply congrArg
    apply dropWhile_ws_append_of_all
    intro c hc
    rw [List.mem_reverse] at hc
    exact h c hc

theorem strip_ws_pad (pre a post : List Char)
    (hpre : ∀ c ∈ pre, isWS c = true) (hpost : ∀ c ∈ post, isWS c = true) :
    stripChars (pre ++ a ++ post) = stripChars a := by
  rw [List.append_assoc, strip_ws_left pre (a ++ post) hpre, strip_ws_right a post hpost]

theorem normalizeCell_object_str (s : String) :
    normalizeCell .object (.str s)
      = if isNAString (String.mk (pyStrNormalize s.data)) then Cell.NA
        else Cell.str (String.mk (pyStrNormalize s.data)) := rfl

theorem normalizeCell_str_spec (s : String) :
    normalizeCell .object (.str s) = specTextNormalize s := by
  rw [normalizeCell_object_str]
  unfold specTextNormalize pyStrNormalize
  set u := String.mk (collapseWS ((stripChars s.data).map lowerChar)) with hu
  show (if isNAString u = true then Cell.NA else Cell.str u)
      = (if u = "nan" ∨ u = "none" ∨ u = "null" ∨ u = "" then Cell.NA else Cell.str u)
  by_cases h : isNAString u = true
  · have hp : u = "nan" ∨ u = "none" ∨ u = "" ∨ u = "null" := of_decide_eq_true h
    rw [if_pos h, if_pos (by tauto)]
  · have hp : ¬(u = "nan" ∨ u = "none" ∨ u = "" ∨ u = "null") :=
      fun hor => h (decide_eq_true hor)
    rw [if_neg h, if_neg (by tauto)]

/-! ## Claim C3: textual normalization and case/whitespace invariance -/

/-- C3: every cell of a selected object column that holds a string is
normalized exactly as the specification words it (trim, lower-case,
collapse whitespace runs, canonicalize "nan"/"none"/"null"/"" to the
missing marker); a string wrapped in extra surrounding whitespace and
changed only in letter case normalizes to the same cell; and concretely
"Alice " and "alice" normalize identically and the two-row table built
from them has both rows flagged as duplicates. -/
theorem C3_text_normalization (t : Table) (cols : List String)
    (hwf : t.wf = true) (hndc : cols.Nodup) :
    (∀ i j s, j < t.header.length → i < t.rows.length →
      (t.header.getD j ("", .object)).2 = DType.object →
      (t.header.getD j ("", .object)).1 ∈ cols →
      t.cell i j = .str s →
      (normalize_data_for_comparison t cols).cell i j = specTextNormalize s) ∧
    (∀ (s1 s2 : String) (pre post : List Char),
      (∀ c ∈ pre, isWS c = true) → (∀ c ∈ post, isWS c = true) →
      s1.data.map lowerChar = s2.data.map lowerChar →
      normalizeCell .object (.str (String.mk (pre ++ s1.data ++ post)))
        = normalizeCell .object (.str s2)) ∧
    normalizeCell .object (.str "Alice ") = normalizeCell .object (.str "alice") ∧
    analysisMask caseWhitespaceTable ["name"] "all" = [true, true] := by
  refine ⟨?_, ?_, by decide, by decide⟩
  · intro i j s hj hi hd hmem hcell
    have hnd := wf_nodup t hwf
    have hlen : ∀ r ∈ t.rows, r.length = t.header.length := fun r hr => (wf_rows t hwf r hr).1
    rw [normalize_cell_selected t cols i j hnd hndc hj hmem hi hlen, hd, hcell]
    exact normalizeCell_str_spec s
  · intro s1 s2 pre post hpre hpost hab
    have h1 : pyStrNormalize (pre ++ s1.data ++ post) = pyStrNormalize s1.data := by
      unfold pyStrNormalize
      rw [strip_ws_pad pre s1.data post hpre hpost]
    have h2 : pyStrNormalize s1.data = pyStrNormalize s2.data :=
      pyStrNormalize_case_invariant _ _ hab
    have hdata : (String.mk (pre ++ s1.data ++ post)).data = pre ++ s1.data ++ post := rfl
    rw [normalizeCell_object_str, normalizeCell_object_str, hdata, h1, h2]

/-- Witness for C3 at the scenario table: the cell "alice " of the
selected object column "name" in row 1 normalizes to its spec image. -/
theorem C3_text_normalization_witness :
    scenarioTable.wf = true ∧ (["name"] : List String).Nodup ∧
    1 < scenarioTable.header.length ∧ 1 < scenarioTable.rows.length ∧
    (scenarioTable.header.getD 1 ("", .object)).2 = DType.object ∧
    (scenarioTable.header.getD 1 ("", .object)).1 ∈ (["name"] : List String) ∧
    scenarioTable.cell 1 1 = .str "alice " ∧
    (normalize_data_for_comparison scenarioTable ["name"]).cell 1 1
      = specTextNormalize "alice " :=
  ⟨by decide, by decide, by decide, by decide, by decide, by decide, by decide,
    (C3_text_normalization scenarioTable ["name"] (by decide) (by decide)).1 1 1 "alice "
      (by decide) (by decide) (by decide) (by decide) (by decide)⟩

/-! ## Claim C4: float rounding to six decimals; exact ints and bools -/

/-- C4: a selected float column is normalized by rounding every float
cell to six decimal places, while cells of integer and boolean columns
are left exactly as they are (selected or not); concretely 1.0000001
and 1.0000004 normalize to the same float, while 1.00001 and 1.00011
stay distinct. -/
theorem C4_float_rounding (t : Table) (cols : List String)
    (hwf : t.wf = true) (hndc : cols.Nodup) :
    (∀ i j q, j < t.header.length → i < t.rows.length →
      (t.header.getD j ("", .object)).2 = DType.float →
      (t.header.getD j ("", .object)).1 ∈ cols →
      t.cell i j = .float q →
      (normalize_data_for_comparison t cols).cell i j = .float (pyRound 6 q)) ∧
    (∀ i j, j < t.header.length → i < t.rows.length →
      ((t.header.getD j ("", .object)).2 = DType.int ∨
        (t.header.getD j ("", .object)).2 = DType.bool) →
      (normalize_data_for_comparison t cols).cell i j = t.cell i j) ∧
    normalizeCell .float (.float (10000001 / 10000000))
      = normalizeCell .float (.float (10000004 / 10000000)) ∧
    normalizeCell .float (.float (100001 / 100000))
      ≠ normalizeCell .float (.float (100011 / 100000)) := by
  have hnd := wf_nodup t hwf
  have hlen : ∀ r ∈ t.rows, r.length = t.header.length := fun r hr => (wf_rows t hwf r hr).1
  refine ⟨?_, ?_, by norm_num [normalizeCell, pyRound, rhe], by
    simp only [normalizeCell, ne_eq, Cell.float.injEq]
    norm_num [pyRound, rhe]⟩
  · intro i j q hj hi hd hmem hcell
    rw [normalize_cell_selected t cols i j hnd hndc hj hmem hi hlen, hd, hcell]
    rfl
  · intro i j hj hi hd
    by_cases hmem : (t.header.getD j ("", .object)).1 ∈ cols
    · rw [normalize_cell_selected t cols i j hnd hndc hj hmem hi hlen]
      rcases hd with hd | hd <;> rw [hd] <;> cases t.cell i j <;> rfl
    · exact normalize_cell_not_selected t cols i j hj hmem

/-- Witness for C4 at the one-column float table: cell (0,0) rounds to
six decimals. -/
theorem C4_float_rounding_witness :
    floatTable.wf = true ∧ (["x"] : List String).Nodup ∧
    0 < floatTable.header.length ∧ 0 < floatTable.rows.length ∧
    (floatTable.header.getD 0 ("", .object)).2 = DType.float ∧
    (floatTable.header.getD 0 ("", .object)).1 ∈ (["x"] : List String) ∧
    floatTable.cell 0 0 = .float (10000001 / 10000000) ∧
    (normalize_data_for_comparison floatTable ["x"]).cell 0 0
      = .float (pyRound 6 (10000001 / 10000000)) :=
  ⟨by decide, by decide, by decide, by decide, by decide, by decide, rfl,
    (C4_float_rounding floatTable ["x"] (by decide) (by decide)).1 0 0 (10000001 / 10000000)
      (by decide) (by decide) (by decide) (by decide) rfl⟩

/-! ## Claim C5: normalization never alters the displayed data -/

/-- C5: the normalizer returns a fresh table (the embedding of the
`df.copy()` of line 105) with the same header and row count; every cell
of a column outside the key set is unchanged even in that copy; and the
duplicates and cleaned subsets handed back to the caller are sublists of
the rows of the original table, so they carry the original,
un-normalized values. -/
theorem C5_frame (t : Table) (cols : List String) (policy : String) :
    (normalize_data_for_comparison t cols).header = t.header ∧
    (normalize_data_for_comparison t cols).rows.length = t.rows.length ∧
    (∀ i j, j < t.header.length → (t.header.getD j ("", .object)).1 ∉ cols →
      (normalize_data_for_comparison t cols).cell i j = t.cell i j) ∧
    (duplicatesOf t cols policy).rows.Sublist t.rows ∧
    (cleanedOf t cols policy).rows.Sublist t.rows :=
  ⟨normalize_header t cols, normalize_rows_length t cols,
    fun i j hj hn => normalize_cell_not_selected t cols i j hj hn,
    maskSelect_sublist _ _, maskSelect_sublist _ _⟩

/-- Witness for C5 at the scenario table: the "id" column (outside the
key set) keeps its value in the normalized copy. -/
theorem C5_frame_witness :
    (normalize_data_for_comparison scenarioTable ["name"]).header = scenarioTable.header ∧
    (normalize_data_for_comparison scenarioTable ["name"]).rows.length
      = scenarioTable.rows.length ∧
    (0 < scenarioTable.header.length ∧
      (scenarioTable.header.getD 0 ("", .object)).1 ∉ (["name"] : List String) ∧
      (normalize_data_for_comparison scenarioTable ["name"]).cell 1 0 = scenarioTable.cell 1 0) ∧
    (duplicatesOf scenarioTable ["name"] "all").rows.Sublist scenarioTable.rows ∧
    (cleanedOf scenarioTable ["name"] "all").rows.Sublist scenarioTable.rows := by
  have h := C5_frame scenarioTable ["name"] "all"
  exact ⟨h.1, h.2.1, ⟨by decide, by decide, h.2.2.1 1 0 (by decide) (by decide)⟩,
    h.2.2.2.1, h.2.2.2.2⟩

/-! ## Idempotence of the string pipeline -/

theorem collapseWSAux_cons_ws_true (c : Char) (rest : List Char) (h : isWS c = true) :
    collapseWSAux true (c :: rest) = collapseWSAux true rest := by
  simp [collapseWSAux, h]

theorem collapseWSAux_cons_ws_false (c : Char) (rest : List Char) (h : isWS c = true) :
    collapseWSAux false (c :: rest) = ' ' :: collapseWSAux true rest := by
  simp [collapseWSAux, h]

theorem collapseWSAux_cons_not (b : Bool) (c : Char) (rest : List Char) (h : isWS c = false) :
    collapseWSAux b (c :: rest) = c :: collapseWSAux false rest := by
  cases b <;> simp [collapseWSAux, h]

theorem collapseWSAux_idem (l : List Char) :
    ∀ b, collapseWSAux b (collapseWSAux b l) = collapseWSAux b l := by
  induction l with
  | nil => intro b; rfl
  | cons c rest ih =>
    intro b
    by_cases hws : isWS c = true
    · cases b with
      | true =>
        rw [collapseWSAux_cons_ws_true c rest hws]
        exact ih true
      | false =>
        rw [collapseWSAux_cons_ws_false c rest hws,
          collapseWSAux_cons_ws_false ' ' _ (by decide), ih true]
    · have hws2 : isWS c = false := by simpa using hws
      rw [collapseWSAux_cons_not b c rest hws2, collapseWSAux_cons_not b c _ hws2, ih false]

theorem mem_collapseWSAux (l : List Char) :
    ∀ b c, c ∈ collapseWSAux b l → c = ' ' ∨ c ∈ l := by
  induction l with
  | nil => intro b c h; simp [collapseWSAux] at h
  | cons d rest ih =>
    intro b c h
    by_cases hws : isWS d = true
    · cases b with
      | true =>
        rw [collapseWSAux_cons_ws_true d rest hws] at h
        rcases ih true c h with h2 | h2
        · exact Or.inl h2
        · exact Or.inr (List.mem_cons_of_mem d h2)
      | false =>
        rw [collapseWSAux_cons_ws_false d rest hws] at h
        rcases List.mem_cons.1 h with h2 | h2
        · exact Or.inl h2
        · rcases ih true c h2 with h3 | h3
          · exact Or.inl h3
          · exact Or.inr (List.mem_cons_of_mem d h3)
    · have hws2 : isWS d = false := by simpa using hws
      rw [collapseWSAux_cons_not b d rest hws2] at h
      rcases List.mem_cons.1 h with h2 | h2
      · exact Or.inr (h2 ▸ List.mem_cons_self d rest)
      · rcases ih false c h2 with h3 | h3
        · exact Or.inl h3
        · exact Or.inr (List.mem_cons_of_mem d h3)

theorem getLast?_cons_of_ne_nil (a : Char) (w : List Char) (hw : w ≠ []) :
    (a :: w).getLast? = w.getLast? := by
  cases w with
  | nil => exact absurd rfl hw
  | cons b bs => exact List.getLast?_cons_cons

theorem getLast?_collapseWSAux (l : List Char) :
    ∀ b c, l.getLast? = some c → isWS c = false →
      (collapseWSAux b l).getLast? = some c := by
  induction l with
  | nil => intro b c h; simp at h
  | cons d rest ih =>
    intro b c h hc
    cases rest with
    | nil =>
      have hd : d = c := by simpa using h
      subst hd
      rw [collapseWSAux_cons_not b d [] hc]
      rfl
    | cons e rest2 =>
      have hlast : (e :: rest2).getLast? = some c := by
        rw [← List.getLast?_cons_cons (a := d)]
        exact h
      by_cases hws : isWS d = true
      · cases b with
        | true =>
          rw [collapseWSAux_cons_ws_true d _ hws]
          exact ih true c hlast hc
        | false =>
          rw [collapseWSAux_cons_ws_false d _ hws]
          have h2 := ih true c hlast hc
          rw [getLast?_cons_of_ne_nil _ _ (by intro hnil; rw [hnil] at h2; simp at h2)]
          exact h2
      · have hws2 : isWS d = false := by simpa using hws
        rw [collapseWSAux_cons_not b d _ hws2]
        have h2 := ih false c hlast hc
        rw [getLast?_cons_of_ne_nil _ _ (by intro hnil; rw [hnil] at h2; simp at h2)]
        exact h2

theorem dropWhile_cons_head (p : Char → Bool) (l : List Char) (c : Char) (cs : List Char)
    (h : l.dropWhile p = c :: cs) : p c = false := by
  induction l with
  | nil => simp at h
  | cons a as ih =>
    rw [List.dropWhile_cons] at h
    by_cases ha : p a = true
    · rw [if_pos ha] at h
      exact ih h
    · rw [if_neg ha] at h
      injection h with h1 h2
      subst h1
      simpa using ha

theorem strip_dropWhile_self (l : List Char) :
    (stripChars l).dropWhile isWS = stripChars l := by
  unfold stripChars
  cases hd : l.dropWhile isWS with
  | nil => simp
  | cons c cs =>
    have hc : isWS c = false := dropWhile_cons_head isWS l c cs hd
    have hcy : c ∈ (c :: cs).reverse := by simp
    have hz_ne : ((c :: cs).reverse.dropWhile isWS) ≠ [] := by
      intro hnil
      rw [List.dropWhile_eq_nil_iff] at hnil
      rw [hnil c hcy] at hc
      simp at hc
    have hz_last : ((c :: cs).reverse.dropWhile isWS).getLast? = some c := by
      obtain ⟨w, hw⟩ := List.dropWhile_suffix (l := (c :: cs).reverse) isWS
      have hy : (c :: cs).reverse.getLast? = some c := by
        rw [List.reverse_cons]
        exact List.getLast?_concat _
      rw [← hw, List.getLast?_append_of_ne_nil w hz_ne] at hy
      exact hy
    have hh : ((c :: cs).reverse.dropWhile isWS).reverse.head? = some c := by
      rw [List.head?_reverse]
      exact hz_last
    cases hzr : ((c :: cs).reverse.dropWhile isWS).reverse with
    | nil => simp
    | cons a as =>
      rw [hzr] at hh
      have ha : a = c := by simpa using hh
      subst ha
      rw [List.dropWhile_cons, hc]
      simp

theorem strip_reverse_dropWhile_self (l : List Char) :
    (stripChars l).reverse.dropWhile isWS = (stripChars l).reverse := by
  unfold stripChars
  rw [List.reverse_reverse]
  exact List.dropWhile_idempotent isWS _

theorem stripChars_of_fixed (m : List Char)
    (h1 : m.dropWhile isWS = m) (h2 : m.reverse.dropWhile isWS = m.reverse) :
    stripChars m = m := by
  unfold stripChars
  rw [h1, h2, List.reverse_reverse]

theorem getLast?_map_lower (l : List Char) :
    (l.map lowerChar).getLast? = l.getLast?.map lowerChar := by
  rw [← List.head?_reverse, ← List.map_reverse, List.head?_map, List.head?_reverse]

theorem strip_getLast?_cases (l : List Char) :
    stripChars l = [] ∨
      ∃ c, (stripChars l).getLast? = some c ∧ isWS c = false := by
  cases hs : stripChars l with
  | nil => exact Or.inl rfl
  | cons a as =>
    right
    have h2 : (stripChars l).reverse = (l.dropWhile isWS).reverse.dropWhile isWS := by
      unfold stripChars
      rw [List.reverse_reverse]
    cases hw : (l.dropWhile isWS).reverse.dropWhile isWS with
    | nil =>
      rw [hw] at h2
      rw [hs] at h2
      simp at h2
    | cons b bs =>
      have hb : isWS b = false := dropWhile_cons_head isWS _ b bs hw
      refine ⟨b, ?_, hb⟩
      rw [hs] at h2
      rw [← List.head?_reverse, h2, hw]
      rfl

theorem dropWhile_collapseWS_of (x : List Char) (hx : x.dropWhile isWS = x) :
    (collapseWS x).dropWhile isWS = collapseWS x := by
  cases x with
  | nil => rfl
  | cons c cs =>
    have hc : isWS c = false := by
      by_contra hcc
      have hcc2 : isWS c = true := by simpa using hcc
      have hlen := congrArg List.length hx
      rw [List.dropWhile_cons, if_pos hcc2] at hlen
      have := (List.dropWhile_suffix (l := cs) isWS).length_le
      simp at hlen
      omega
    show (collapseWSAux false (c :: cs)).dropWhile isWS = collapseWSAux false (c :: cs)
    rw [collapseWSAux_cons_not false c cs hc, List.dropWhile_cons, hc]
    simp

theorem map_lower_collapseWS_fixed (s : List Char) :
    (collapseWS (s.map lowerChar)).map lowerChar = collapseWS (s.map lowerChar) := by
  have hfix : ∀ c ∈ collapseWS (s.map lowerChar), lowerChar c = c := by
    intro c hc
    rcases mem_collapseWSAux (s.map lowerChar) false c hc with h | h
    · rw [h]
      exact lowerChar_space
    · obtain ⟨c0, hc0, rfl⟩ := List.mem_map.1 h
      exact lowerChar_idem c0
  calc (collapseWS (s.map lowerChar)).map lowerChar
      = (collapseWS (s.map lowerChar)).map id := List.map_congr_left hfix
    _ = collapseWS (s.map lowerChar) := List.map_id _

theorem strip_collapseWS_fixed (l : List Char) :
    stripChars (collapseWS ((stripChars l).map lowerChar)) = collapseWS ((stripChars l).map lowerChar) := by
  set x := (stripChars l).map lowerChar with hxdef
  have hxdrop : x.dropWhile isWS = x := by
    rw [hxdef, dropWhile_map_lower, strip_dropWhile_self]
  apply stripChars_of_fixed
  · exact dropWhile_collapseWS_of x hxdrop
  · rcases strip_getLast?_cases l with hnil | ⟨c, hlast, hc⟩
    · rw [hxdef, hnil]
      rfl
    · have hxlast : x.getLast? = some (lowerChar c) := by
        rw [hxdef, getLast?_map_lower, hlast]
        rfl
      have hclast : (collapseWS x).getLast? = some (lowerChar c) :=
        getLast?_collapseWSAux x false (lowerChar c) hxlast (by rw [isWS_lowerChar]; exact hc)
      have hh : (collapseWS x).reverse.head? = some (lowerChar c) := by
        rw [List.head?_reverse]
        exact hclast
      cases hzr : (collapseWS x).reverse with
      | nil => simp
      | cons a as =>
        rw [hzr] at hh
        have ha : a = lowerChar c := by simpa using hh
        subst ha
        rw [List.dropWhile_cons]
        rw [isWS_lowerChar, hc]
        simp

theorem pyStrNormalize_idem (l : List Char) :
    pyStrNormalize (pyStrNormalize l) = pyStrNormalize l := by
  show collapseWS ((stripChars (pyStrNormalize l)).map lowerChar) = pyStrNormalize l
  have h1 : stripChars (pyStrNormalize l) = pyStrNormalize l := strip_collapseWS_fixed l
  rw [h1]
  show collapseWS ((collapseWS ((stripChars l).map lowerChar)).map lowerChar) = pyStrNormalize l
  rw [map_lower_collapseWS_fixed (stripChars l)]
  exact collapseWSAux_idem _ false

theorem normalizeCell_idem (d : DType) (c : Cell) (h : normalizeCell d c ≠ Cell.NA) :
    normalizeCell d (normalizeCell d c) = normalizeCell d c := by
  cases d with
  | object =>
    cases c with
    | str s =>
      rw [normalizeCell_object_str] at h ⊢
      by_cases hb : isNAString (String.mk (pyStrNormalize s.data)) = true
      · rw [if_pos hb] at h
        exact absurd rfl h
      · rw [if_neg hb] at h ⊢
        rw [normalizeCell_object_str]
        have hdat : (String.mk (pyStrNormalize s.data)).data = pyStrNormalize s.data := rfl
        rw [hdat, pyStrNormalize_idem]
        rw [if_neg hb]
    | nan => exact absurd rfl h
    | NA => decide
    | float q => rfl
    | int n => rfl
    | bool b => rfl
  | float =>
    cases c with
    | float q =>
      show Cell.float (pyRound 6 (pyRound 6 q)) = Cell.float (pyRound 6 q)
      rw [pyRound_idem]
    | str s => rfl
    | int n => rfl
    | bool b => rfl
    | nan => rfl
    | NA => rfl
  | int => cases c <;> rfl
  | bool => cases c <;> rfl

theorem Table.eq_of_parts (a b : Table) (h1 : a.header = b.header) (h2 : a.rows = b.rows) :
    a = b := by
  cases a
  cases b
  simp_all

theorem rows_eq_of_cell (a b : Table) (hlen : a.rows.length = b.rows.length)
    (hrowlen : ∀ i, (a.rows.getD i []).length = (b.rows.getD i []).length)
    (hcell : ∀ i j, a.cell i j = b.cell i j) : a.rows = b.rows := by
  apply List.ext_getElem hlen
  intro i h1 h2
  apply List.ext_getElem
  · have := hrowlen i
    rw [List.getD_eq_getElem _ _ h1, List.getD_eq_getElem _ _ h2] at this
    exact this
  · intro j hj1 hj2
    have := hcell i j
    unfold Table.cell at this
    rw [List.getD_eq_getElem _ _ h1, List.getD_eq_getElem _ _ h2] at this
    rw [List.getD_eq_getElem _ _ hj1, List.getD_eq_getElem _ _ hj2] at this
    exact this

theorem cell_out_of_bounds (a : Table) (i j : ℕ)
    (h : a.rows.length ≤ i ∨ (a.rows.getD i []).length ≤ j) : a.cell i j = Cell.nan := by
  unfold Table.cell
  rcases h with h | h
  · rw [List.getD_eq_default _ _ h]
    simp
  · rw [List.getD_eq_default _ _ h]

theorem normalize_row_lengths (t : Table) (cols : List String)
    (h : ∀ r ∈ t.rows, r.length = t.header.length) :
    ∀ r ∈ (normalize_data_for_comparison t cols).rows, r.length = t.header.length := by
  induction cols generalizing t with
  | nil => exact h
  | cons c cs ih =>
    unfold normalize_data_for_comparison at ih ⊢
    rw [List.foldl_cons]
    intro r hr
    have hh := normalizeColumn_header t c
    have hstep := normalizeColumn_row_lengths t c h
    have := ih (normalizeColumn t c) (by rw [hh]; exact hstep) r hr
    rw [hh] at this
    exact this

/-! ## Claim C6: idempotence of normalization (corrected) -/

/-- C6 counterexample: one object column whose single cell is the empty
string.  The first normalization canonicalizes the cell to the missing
marker `pandas.NA`; the second pass sends that marker through
`astype(str)`, which renders it as "<NA>", lower-cased to the plain
string "<na>", which the replacement dictionary does not map back - so
normalizing twice differs from normalizing once. -/
theorem C6_counterexample :
    normalize_data_for_comparison
        (normalize_data_for_comparison blankStringTable ["name"]) ["name"]
      ≠ normalize_data_for_comparison blankStringTable ["name"] ∧
    (normalize_data_for_comparison blankStringTable ["name"]).cell 0 0 = Cell.NA ∧
    (normalize_data_for_comparison
        (normalize_data_for_comparison blankStringTable ["name"]) ["name"]).cell 0 0
      = Cell.str "<na>" := by
  decide

/-- C6 (amended): normalization is idempotent on every well-formed table
and duplicate-free key-column set such that no cell of a selected column
is normalized to the missing marker - that is, as long as no selected
object-column cell is missing or a spelling of "no value"
("nan"/"none"/"null"/"" after trimming, lower-casing and whitespace
collapsing).  When some cell does normalize to the marker, a second pass
turns that marker into the literal string "<na>" and idempotence fails
(see the counterexample). -/
theorem C6_normalize_idem (t : Table) (cols : List String)
    (hwf : t.wf = true) (hndc : cols.Nodup)
    (hna : ∀ i < t.rows.length, ∀ j < t.header.length,
      (t.header.getD j ("", .object)).1 ∈ cols →
      normalizeCell (t.header.getD j ("", .object)).2 (t.cell i j) ≠ Cell.NA) :
    normalize_data_for_comparison (normalize_data_for_comparison t cols) cols
      = normalize_data_for_comparison t cols := by
  have hnd : t.colNames.Nodup := wf_nodup t hwf
  have hlen : ∀ r ∈ t.rows, r.length = t.header.length :=
    fun r hr => (wf_rows t hwf r hr).1
  have hh1 : (normalize_data_for_comparison t cols).header = t.header :=
    normalize_header t cols
  have hcnt : (normalize_data_for_comparison t cols).rows.length = t.rows.length :=
    normalize_rows_length t cols
  have hnd1 : (normalize_data_for_comparison t cols).colNames.Nodup := by
    unfold Table.colNames
    rw [hh1]
    exact hnd
  have hlen1 : ∀ r ∈ (normalize_data_for_comparison t cols).rows,
      r.length = (normalize_data_for_comparison t cols).header.length := by
    rw [hh1]
    exact normalize_row_lengths t cols hlen
  have hlenA : ∀ r ∈ (normalize_data_for_comparison
      (normalize_data_for_comparison t cols) cols).rows, r.length = t.header.length := by
    have := normalize_row_lengths (normalize_data_for_comparison t cols) cols hlen1
    rw [hh1] at this
    exact this
  have hlenB : ∀ r ∈ (normalize_data_for_comparison t cols).rows,
      r.length = t.header.length := by
    intro r hr
    have := hlen1 r hr
    rw [hh1] at this
    exact this
  have hcntA : (normalize_data_for_comparison
      (normalize_data_for_comparison t cols) cols).rows.length = t.rows.length := by
    rw [normalize_rows_length, hcnt]
  apply Table.eq_of_parts
  · exact normalize_header _ cols
  · apply rows_eq_of_cell
    · rw [hcntA, hcnt]
    · intro i
      by_cases hi : i < t.rows.length
      · have h1 : i < (normalize_data_for_comparison
            (normalize_data_for_comparison t cols) cols).rows.length := by
          rw [hcntA]
          exact hi
        have h2 : i < (normalize_data_for_comparison t cols).rows.length := by
          rw [hcnt]
          exact hi
        have e1 : (normalize_data_for_comparison
            (normalize_data_for_comparison t cols) cols).rows.getD i []
            ∈ (normalize_data_for_comparison
              (normalize_data_for_comparison t cols) cols).rows := by
          rw [List.getD_eq_getElem _ _ h1]
          exact List.getElem_mem h1
        have e2 : (normalize_data_for_comparison t cols).rows.getD i []
            ∈ (normalize_data_for_comparison t cols).rows := by
          rw [List.getD_eq_getElem _ _ h2]
          exact List.getElem_mem h2
        rw [hlenA _ e1, hlenB _ e2]
      · push_neg at hi
        rw [List.getD_eq_default _ _ (by rw [hcntA]; exact hi),
          List.getD_eq_default _ _ (by rw [hcnt]; exact hi)]
    · intro i j
      by_cases hi : i < t.rows.length
      swap
      · push_neg at hi
        rw [cell_out_of_bounds _ i j (Or.inl (by rw [hcntA]; exact hi)),
          cell_out_of_bounds _ i j (Or.inl (by rw [hcnt]; exact hi))]
      by_cases hjh : j < t.header.length
      swap
      · push_neg at hjh
        have h1 : i < (normalize_data_for_comparison
            (normalize_data_for_comparison t cols) cols).rows.length := by
          rw [hcntA]
          exact hi
        have h2 : i < (normalize_data_for_comparison t cols).rows.length := by
          rw [hcnt]
          exact hi
        have e1 : (normalize_data_for_comparison
            (normalize_data_for_comparison t cols) cols).rows.getD i []
            ∈ (normalize_data_for_comparison
              (normalize_data_for_comparison t cols) cols).rows := by
          rw [List.getD_eq_getElem _ _ h1]
          exact List.getElem_mem h1
        have e2 : (normalize_data_for_comparison t cols).rows.getD i []
            ∈ (normalize_data_for_comparison t cols).rows := by
          rw [List.getD_eq_getElem _ _ h2]
          exact List.getElem_mem h2
        rw [cell_out_of_bounds _ i j (Or.inr (by rw [hlenA _ e1]; exact hjh)),
          cell_out_of_bounds _ i j (Or.inr (by rw [hlenB _ e2]; exact hjh))]
      by_cases hmem : (t.header.getD j ("", .object)).1 ∈ cols
      · have e2 : (normalize_data_for_comparison t cols).cell i j
            = normalizeCell (t.header.getD j ("", .object)).2 (t.cell i j) :=
          normalize_cell_selected t cols i j hnd hndc hjh hmem hi hlen
        have e1 : (normalize_data_for_comparison
            (normalize_data_for_comparison t cols) cols).cell i j
            = normalizeCell ((normalize_data_for_comparison t cols).header.getD
                j ("", .object)).2 ((normalize_data_for_comparison t cols).cell i j) :=
          normalize_cell_selected (normalize_data_for_comparison t cols) cols i j
            hnd1 hndc (by rw [hh1]; exact hjh) (by rw [hh1]; exact hmem)
            (by rw [hcnt]; exact hi) hlen1
        rw [e1, e2]
        have hdd : ((normalize_data_for_comparison t cols).header.getD j ("", .object)).2
            = (t.header.getD j ("", .object)).2 := by
          rw [hh1]
        rw [hdd]
        exact normalizeCell_idem _ _ (hna i hi j hjh hmem)
      · have e2 : (normalize_data_for_comparison t cols).cell i j = t.cell i j :=
          normalize_cell_not_selected t cols i j hjh hmem
        have e1 : (normalize_data_for_comparison
            (normalize_data_for_comparison t cols) cols).cell i j
            = (normalize_data_for_comparison t cols).cell i j :=
          normalize_cell_not_selected (normalize_data_for_comparison t cols) cols i j
            (by rw [hh1]; exact hjh) (by rw [hh1]; exact hmem)
        rw [e1]

/-- Witness for the amended C6 at the two-row case/whitespace table:
neither "Alice " nor "alice" normalizes to the marker, and normalizing
twice equals normalizing once. -/
theorem C6_normalize_idem_witness :
    caseWhitespaceTable.wf = true ∧ (["name"] : List String).Nodup ∧
    (∀ i < caseWhitespaceTable.rows.length, ∀ j < caseWhitespaceTable.header.length,
      (caseWhitespaceTable.header.getD j ("", .object)).1 ∈ (["name"] : List String) →
      normalizeCell (caseWhitespaceTable.header.getD j ("", .object)).2
          (caseWhitespaceTable.cell i j) ≠ Cell.NA) ∧
    normalize_data_for_comparison
        (normalize_data_for_comparison caseWhitespaceTable ["name"]) ["name"]
      = normalize_data_for_comparison caseWhitespaceTable ["name"] :=
  ⟨by decide, by decide, by decide,
    C6_normalize_idem caseWhitespaceTable ["name"] (by decide) (by decide) (by decide)⟩
